import Mathlib

/-
Verification development for the SOP-agent prototype repository.

The repository normalizes an irregular spreadsheet (group header row, role
header row, per-cell applicability codes) into per-role SOP fact lists,
filters those facts along several dimensions, and (per its specification)
splits free text into overlapping chunks for retrieval.

This file embeds the relevant Python functions shallowly:
 - spreadsheet cell values become the inductive `Value` (pandas NaN, strings,
   ints, finite floats, other objects);
 - Python floats are represented exactly as scaled decimals `m * 10^(-e)`
   (IEEE rounding, overflow to infinity and non-finite values are outside the
   model; none of the verified properties depend on them);
 - Python strings are Lean `String`s, but every operation on them
   (strip, lower, comparison) is re-implemented over `String.data` so that
   all definitions reduce inside the kernel;
 - raising Python code is embedded in `Except` with an explicit catch.
-/

namespace SopAgent

/-! ## Python value and string model -/

/-- A spreadsheet cell value as seen by the Python code after
`pd.read_excel(..., header=None, dtype=object)`: pandas missing values
(`NaN`/`None`, collapsed into one constructor since the code only ever
observes them through `pd.isna`), strings, integers, finite floats
represented exactly as `m * 10^(-e)`, and arbitrary other objects
(for which `int(v)` raises and `str(v)` is some opaque token). -/
inductive Value where
  | nanV : Value
  | strV (s : String) : Value
  | intV (n : Int) : Value
  | floatV (m : Int) (e : Nat) : Value
  | otherV : Value
deriving DecidableEq

/-- `pd.isna` on a cell value: true exactly on the missing-value marker. -/
def pyIsNa : Value → Bool
  | .nanV => true
  | _ => false

/-- Whitespace trim on a character list (both ends), the kernel-computable
counterpart of Python `str.strip()`. -/
def trimChars (l : List Char) : List Char :=
  ((l.dropWhile Char.isWhitespace).reverse.dropWhile Char.isWhitespace).reverse

/-- Python `str.strip()`. -/
def pyStrip (s : String) : String := ⟨trimChars s.data⟩

/-- Python `str.lower()`. -/
def pyLower (s : String) : String := ⟨s.data.map Char.toLower⟩

/-- Code-point lexicographic strict order on character lists, the order
Python uses to compare strings. -/
def charsLt : List Char → List Char → Bool
  | [], [] => false
  | [], _ :: _ => true
  | _ :: _, [] => false
  | a :: as, b :: bs =>
    if a.val < b.val then true
    else if b.val < a.val then false
    else charsLt as bs

/-- Python `a < b` on strings. -/
def strLtB (a b : String) : Bool := charsLt a.data b.data

/-- Python `a <= b` on strings (total order used by `sorted`). -/
def strLeB (a b : String) : Bool := !(strLtB b a)

/-- Insert into a `strLeB`-sorted list, keeping it sorted. -/
def insertStr (x : String) : List String → List String
  | [] => [x]
  | y :: ys => if strLeB x y then x :: y :: ys else y :: insertStr x ys

/-- Python `sorted` on a list of strings (insertion sort; stable, but the
inputs it is applied to are duplicate-free so only the order matters). -/
def pySorted (l : List String) : List String := l.foldr insertStr []

/-- First-occurrence de-duplication: the order in which distinct values come
out of a Python `dict` built by insertion (also models `sorted(set(l))`
when composed with `pySorted`). -/
def pyUniqueFirst (l : List String) : List String :=
  l.foldl (fun acc k => if k ∈ acc then acc else acc ++ [k]) []

/-- Python `sorted(set(l))` for a list of strings. -/
def pySortedSet (l : List String) : List String := pySorted (pyUniqueFirst l)

/-- Python `str(v)` on a cell value. `str` of a float is abstracted: a float
with no fractional scale (`e = 0`) prints as the integer followed by `".0"`,
exactly as Python prints integral floats; a scaled float (`e > 0`) prints in
an explicit scientific form. The only property the development relies on is
that a float never prints as a bare integer literal, which also holds of
Python's shortest-round-trip representation. `str` of an arbitrary non-string
object is an opaque token. -/
def pyStr : Value → String
  | .nanV => "nan"
  | .strV s => s
  | .intV n => toString n
  | .floatV m e => if e = 0 then toString m ++ ".0" else toString m ++ "e-" ++ toString e
  | .otherV => "<object>"

/-! ## Python `float(string)` and `int(float)`

`to_int_safe` (src/app_exl.py lines 53-64, duplicated verbatim in
src/app_exl1.py lines 50-61) parses a stripped string with `float` and
truncates with `int`.  The grammar below follows CPython's
`float_from_string`: optional sign, digits with single underscores between
digits, optional fractional part, optional exponent.  The words
`inf`/`infinity`/`nan` are modelled as parse failures: Python parses them,
but `int()` then raises, so `to_int_safe` returns `None` either way and the
two embeddings are observationally equal. -/

/-- Consume a run of decimal digits, allowing a single `_` between digits
(CPython numeric-literal rule).  Returns the accumulated value, the number
of digits consumed and the unconsumed rest.  `fuel` is the length of the
input, making the recursion structural and kernel-computable. -/
def digitsAux : Nat → Nat → Nat → List Char → (Nat × Nat × List Char)
  | 0, acc, cnt, l => (acc, cnt, l)
  | _ + 1, acc, cnt, [] => (acc, cnt, [])
  | fuel + 1, acc, cnt, c :: cs =>
    if c.isDigit then digitsAux fuel (acc * 10 + (c.toNat - 48)) (cnt + 1) cs
    else if c = '_' && cnt != 0 then
      match cs with
      | d :: ds =>
        if d.isDigit then digitsAux fuel (acc * 10 + (d.toNat - 48)) (cnt + 1) ds
        else (acc, cnt, c :: cs)
      | [] => (acc, cnt, [c])
    else (acc, cnt, c :: cs)

/-- Optional sign; returns (is-negative, rest). -/
def parseSignChar : List Char → (Bool × List Char)
  | '+' :: cs => (false, cs)
  | '-' :: cs => (true, cs)
  | cs => (false, cs)

/-- Python `float(s)` on an already-stripped string, as an exact scaled
decimal: `some (num, scale)` represents the value `num * 10^scale`;
`none` is a `ValueError`. -/
def pyFloatOfString (s : String) : Option (Int × Int) :=
  let l := s.data
  let (neg, l1) := parseSignChar l
  let (ip, ic, l2) := digitsAux l1.length 0 0 l1
  let (mant, fc, l3) :=
    match l2 with
    | '.' :: cs =>
      let (fv, fcnt, rest) := digitsAux cs.length 0 0 cs
      (ip * 10 ^ fcnt + fv, fcnt, rest)
    | _ => (ip, 0, l2)
  if ic + fc = 0 then none
  else
    let num : Int := if neg then -(mant : Int) else (mant : Int)
    match l3 with
    | [] => some (num, -(fc : Int))
    | c :: cs =>
      if c = 'e' || c = 'E' then
        let (eneg, cs2) := parseSignChar cs
        let (ev, ec, rest) := digitsAux cs2.length 0 0 cs2
        if ec = 0 || !rest.isEmpty then none
        else some (num, (if eneg then -(ev : Int) else (ev : Int)) - (fc : Int))
      else none

/-- Python `int(x)` on the exact value `num * 10^scale`: truncation toward
zero (`Int.tdiv` is T-division). -/
def truncScaled (num : Int) (scale : Int) : Int :=
  if 0 ≤ scale then num * 10 ^ scale.toNat else Int.tdiv num (10 ^ (-scale).toNat)

/-- The exceptions the body of `to_int_safe` can raise: `ValueError` from
`float(str)` on an unparseable string, `TypeError`/`OverflowError` from
`int(v)` on a non-numeric object (collapsed into one constructor). -/
inductive PyExc where
  | valueError : PyExc
  | typeError : PyExc
deriving DecidableEq

/-- The `try:` body of `to_int_safe` (src/app_exl.py lines 53-62): each
Python operation that can raise is explicit in the `Except`. -/
def to_int_safe_body (v : Value) : Except PyExc (Option Int) :=
  if pyIsNa v then .ok none
  else
    match v with
    | .strV s =>
      let v2 := pyStrip s
      if v2 = "" then .ok none
      else
        match pyFloatOfString v2 with
        | some (num, scale) => .ok (some (truncScaled num scale))
        | none => .error .valueError
    | .intV n => .ok (some n)
    | .floatV m e => .ok (some (Int.tdiv m (10 ^ e)))
    | .nanV => .ok none
    | .otherV => .error .typeError

/-- `to_int_safe` (src/app_exl.py lines 53-64): the body wrapped in
`except Exception: return None`. -/
def to_int_safe (v : Value) : Option Int :=
  match to_int_safe_body v with
  | .ok r => r
  | .error _ => none

/-- The coercion described by the specification of `to_int_safe`, written
from its words: NaN yields `None`; a string is stripped, an empty result
yields `None`, otherwise it is parsed as a float and truncated, with `None`
on parse failure; numeric values are truncated; any other value degrades to
`None`.  This is the comparison definition for claim C2; the code-side
definition is `to_int_safe` above, with its exception paths explicit. -/
def toIntClaimed (v : Value) : Option Int :=
  match v with
  | .nanV => none
  | .strV s =>
    if pyStrip s = "" then none
    else
      match pyFloatOfString (pyStrip s) with
      | some (num, scale) => some (truncScaled num scale)
      | none => none
  | .intV n => some n
  | .floatV m e => some (Int.tdiv m (10 ^ e))
  | .otherV => none

/-! ## Raw grids and the two matrix pipelines

A raw sheet as loaded with `header=None` is a rectangular grid of cell
values; a pandas DataFrame pads every row to the same width, which the
`RectGrid` predicate records. -/

/-- A raw, headerless sheet: rows of cell values. -/
abbrev Grid : Type := List (List Value)

/-- Rectangularity: every row of the grid has width `w` (pandas pads short
rows with NaN when constructing the DataFrame, so a loaded sheet always
satisfies this). -/
def RectGrid (g : Grid) (w : Nat) : Prop := ∀ r ∈ g, r.length = w

instance (g : Grid) (w : Nat) : Decidable (RectGrid g w) := by
  unfold RectGrid; infer_instance

/-- The cell of row `row` at column `col` (missing positions read as NaN,
matching pandas padding). -/
def cellAt (row : List Value) (col : Nat) : Value := row.getD col .nanV

/-- The record `preprocess_contexts.py` builds for one assigned SOP
(lines 46-52): the four leading descriptive columns of the data row. -/
structure SopTxtRec where
  businessUnit : Value
  sopType : Value
  number : Value
  title : Value
deriving DecidableEq

/-- The inner loop of `sops_per_role` in src/preprocess_contexts.py
(lines 41-53): for one role column `col`, scan the data rows
(`df.iloc[3:]`) and keep a row exactly when
`str(assigned).strip() in ["1", "2", "3"]`. -/
def sopsForCol (g : Grid) (col : Nat) : List SopTxtRec :=
  ((g.drop 3).filter
      (fun row => decide (pyStrip (pyStr (cellAt row col)) ∈ (["1", "2", "3"] : List String)))).map
    (fun row => ⟨cellAt row 0, cellAt row 1, cellAt row 2, cellAt row 3⟩)

/-- The per-category row filter of src/app_exl.py lines 147-150 (identical
in src/app_exl1.py lines 148-151): `role_series = data_df.iloc[:,
col].apply(to_int_safe)` followed by `data_df[role_series ==
category_value]`.  A pandas `None` entry compares unequal to any integer,
which is exactly `Option` equality against `some cat`. -/
def filteredRows (g : Grid) (col : Nat) (cat : Int) : List (List Value) :=
  (g.drop 3).filter (fun row => to_int_safe (cellAt row col) == some cat)

/-- The applicability categories of the UI (`category_map` in
src/app_exl.py lines 34-38). -/
def categoryValues : List Int := [1, 2, 3]

/-! ## Group-row forward-fill (src/app_exl.py lines 81, 94-102) -/

/-- `fillna(method="ffill")` on one row of cells: each NaN is replaced by
the most recent non-NaN value to its left; leading NaNs stay NaN.  Note that
pandas fills only missing values - an empty or whitespace string is not NaN
and is left untouched. -/
def ffillAux (carry : Option Value) : List Value → List Value
  | [] => []
  | v :: vs =>
    if pyIsNa v then (carry.getD .nanV) :: ffillAux carry vs
    else v :: ffillAux (some v) vs

/-- `group_row = raw.iloc[0].copy().fillna(method="ffill")`
(src/app_exl.py line 81). -/
def ffillRow (l : List Value) : List Value := ffillAux none l

/-- The group-naming step of the `groups_map` loop (src/app_exl.py lines
96-101): take the forward-filled cell, render it as text and strip it
(NaN renders as the empty string), and substitute `"Ungrouped"` when the
result is empty or reads `"nan"`/`"none"` case-insensitively. -/
def nameOfGroupCell (v : Value) : String :=
  let s := if pyIsNa v then "" else pyStrip (pyStr v)
  if s = "" || pyLower s ∈ (["nan", "none"] : List String) then "Ungrouped" else s

/-- The group name the code assigns to column `i` of a group row. -/
def groupNameAt (groupRow : List Value) (i : Nat) : String :=
  nameOfGroupCell ((ffillRow groupRow).getD i .nanV)

/-- The last non-NaN value among `l` (the fold pandas ffill effectively
carries), used to state the closed form of `ffillRow`. -/
def lastNonNan (l : List Value) : Option Value :=
  l.foldl (fun acc v => if pyIsNa v then acc else some v) none

/-- Closed form of the forward-filled row at position `i`: the last non-NaN
value among the first `i + 1` cells, or NaN if there is none. -/
def fillVal (l : List Value) (i : Nat) : Value :=
  (lastNonNan (l.take (i + 1))).getD .nanV

/-- The forward-fill described by claim C3, written from its words: a
blank-or-NaN cell is replaced by the last non-blank value seen to its left,
and `"Ungrouped"` is substituted when no prior non-blank value exists.
Blank means: missing, or rendering to an empty string after stripping.
This is the comparison definition for claim C3. -/
def claimedGroupName (groupRow : List Value) (i : Nat) : String :=
  let blank := fun v => pyIsNa v || pyStrip (pyStr v) = ""
  match ((groupRow.take (i + 1)).filter (fun v => !(blank v))).getLast? with
  | some v => pyStrip (pyStr v)
  | none => "Ungrouped"

/-! ## Sheet layout checks (src/app_exl.py lines 76-91) -/

/-- The structural failure modes of parsing a sheet: missing header rows
(`raw.shape[0] <= HEADER_COLS_ROW`, lines 76-78) and no role columns
(`len(header_row) <= 4`, lines 89-91).  Both call `st.error` + `st.stop()`,
so nothing is produced for that sheet. -/
inductive LayoutError where
  | missingHeaderRows : LayoutError
  | noRoleColumns : LayoutError
deriving DecidableEq

/-- Parse one sheet per src/app_exl.py lines 73-102: check the row count
against `HEADER_COLS_ROW = 2`, read the header row (`raw.iloc[2]` coerced
with `astype(str)`), check that columns beyond index 4 exist, and return the
role columns (index and header text for every column index `>= 4`) together
with the data rows (`raw.iloc[3:]`). -/
def parseSheet (g : Grid) : Except LayoutError (List (Nat × String) × Grid) :=
  if g.length ≤ 2 then .error .missingHeaderRows
  else
    let header := (g.getD 2 []).map pyStr
    if header.length ≤ 4 then .error .noRoleColumns
    else
      .ok (((List.range header.length).filter (fun i => 4 ≤ i)).map
            (fun i => (i, header.getD i "")),
           g.drop 3)

/-- Whether a parse attempt failed with a `LayoutError`. -/
def layoutFailed (r : Except LayoutError (List (Nat × String) × Grid)) : Bool :=
  match r with
  | .error _ => true
  | .ok _ => false

/-! ## Filtering (src/app_exl2.py lines 286-301) -/

/-- One row of `out_df` in src/app_exl2.py: a parsed learning item with its
list-valued filter dimensions. `srcIndices` records the `SourceIndices` /
`SourceIndex` field (a course row stores the one-element list `[i]`). -/
structure LearnRec where
  title : String
  id : String
  rtype : String
  groups : List String
  practices : List String
  roles : List String
  srcIndices : List Nat
deriving DecidableEq

instance : Inhabited LearnRec := ⟨⟨"", "", "", [], [], [], []⟩⟩

/-- `row_matches_filter_list` (src/app_exl2.py lines 286-291): an empty
selection matches everything, an empty row value matches nothing otherwise,
and a non-empty row value matches when any of its items is selected. -/
def row_matches_filter_list (row_list selected_list : List String) : Bool :=
  if selected_list.isEmpty then true
  else if row_list.isEmpty then false
  else row_list.any (fun item => selected_list.contains item)

/-- The predicate applied row-wise by `out_df.apply(..., axis=1)`
(src/app_exl2.py lines 293-300): AND across the practice, group and role
dimensions. -/
def rowPasses (selP selG selR : List String) (r : LearnRec) : Bool :=
  row_matches_filter_list r.practices selP &&
  row_matches_filter_list r.groups selG &&
  row_matches_filter_list r.roles selR

/-- `df.apply(pred, axis=1)`: the boolean mask series.  Produces a new
series; the frame it is applied to is not modified. -/
def dfApplyMask (df : List LearnRec) (p : LearnRec → Bool) : List Bool := df.map p

/-- Boolean-mask indexing `df[mask]`: keep the rows whose mask entry is
true, in source order.  Produces a new frame; the indexed frame is not
modified. -/
def dfBoolIndex : List LearnRec → List Bool → List LearnRec
  | [], _ => []
  | _ :: _, [] => []
  | r :: rs, b :: bs => if b then r :: dfBoolIndex rs bs else dfBoolIndex rs bs

/-- `DataFrame.copy()`: a fresh frame with the same rows. -/
def dfCopy (df : List LearnRec) : List LearnRec := df

/-- The filter evaluation of src/app_exl2.py lines 293-301:
`filtered_df = out_df[mask].copy()` with
`mask = out_df.apply(rowPasses, axis=1)`. -/
def evaluateRecords (df : List LearnRec) (selP selG selR : List String) : List LearnRec :=
  dfCopy (dfBoolIndex df (dfApplyMask df (rowPasses selP selG selR)))

/-- State-threaded version of the same evaluation, used to express that the
input frame is left intact: every pandas operation the code performs
(`apply`, boolean indexing, `copy`) returns a fresh object and leaves its
receiver unchanged, so each step passes the input frame through unchanged
alongside its result.  The first component is the input frame after
evaluation, the second the result frame. -/
def evaluateRecordsSt (df : List LearnRec) (selP selG selR : List String) :
    List LearnRec × List LearnRec :=
  let (df1, mask) := (df, dfApplyMask df (rowPasses selP selG selR))
  let (df2, sub) := (df1, dfBoolIndex df1 mask)
  let (df3, res) := (df2, dfCopy sub)
  (df3, res)

/-! ## The spec-level fact engine used by claim C6

The specification unifies the repository's per-screen filters into one
`FilterEngine` over `SopRoleFact` rows (one role per fact).  That engine is
not a single function in src/ - src/app_exl.py selects a role by column and
src/app_exl2.py filters list-valued dimensions - so it is modelled from the
spec, using the matcher the source does define. -/

/-- One row of the normalized fact table (spec section 3). -/
structure SopRoleFact where
  sop_id : String
  sop_title : String
  business_unit : String
  sop_type : String
  role_name : String
  group_name : String
  applicability_level : Int
  notes : String
  region_tags : List String
deriving DecidableEq

/-- A filter specification (spec section 3): one allowed set per dimension;
an empty set means no restriction. -/
structure FilterSpec where
  roles : List String
  groups : List String
  regions : List String
deriving DecidableEq

/-- The everything-passes specification. -/
def FilterSpec.empty : FilterSpec := ⟨[], [], []⟩

/-- Modelled from the spec: `FilterEngine.evaluate` (spec section 4.3),
which is not a single function in src/; each dimension is evaluated with
`row_matches_filter_list` from src/app_exl2.py lines 286-291, scalar
attributes being passed as one-element lists, and facts are kept in source
order. -/
def evaluateFacts (facts : List SopRoleFact) (spec : FilterSpec) : List SopRoleFact :=
  facts.filter (fun f =>
    row_matches_filter_list [f.role_name] spec.roles &&
    row_matches_filter_list [f.group_name] spec.groups &&
    row_matches_filter_list f.region_tags spec.regions)

/-! ## Text chunking (spec section 4.4; no implementation exists in src/) -/

/-- A text chunk (spec section 3): its index, character bounds and text. -/
structure TextChunk where
  index : Nat
  char_start : Nat
  char_end : Nat
  text : List Char
deriving DecidableEq

instance : Inhabited TextChunk := ⟨⟨0, 0, 0, []⟩⟩

/-- The chunking parameter error (spec section 7). -/
inductive ConfigError where
  | overlapGeSize : ConfigError
deriving DecidableEq

instance (ε α : Type) [DecidableEq ε] [DecidableEq α] : DecidableEq (Except ε α) := fun a b =>
  match a, b with
  | .error e1, .error e2 =>
    if h : e1 = e2 then .isTrue (by rw [h]) else .isFalse (by intro hc; cases hc; exact h rfl)
  | .ok v1, .ok v2 =>
    if h : v1 = v2 then .isTrue (by rw [h]) else .isFalse (by intro hc; cases hc; exact h rfl)
  | .error _, .ok _ => .isFalse (by intro hc; cases hc)
  | .ok _, .error _ => .isFalse (by intro hc; cases hc)

/-- Number of window positions `k` with `k * step < len`, for `step > 0`. -/
def numChunks (len step : Nat) : Nat := (len + step - 1) / step

/-- The chunk sequence of the sliding window: chunk `k` starts at
`k * (size - overlap)`, carries at most `size` characters and is truncated
at the end of the text; a chunk exists for every start position strictly
before the end of the text. -/
def chunkList (text : List Char) (size overlap : Nat) : List TextChunk :=
  (List.range (numChunks text.length (size - overlap))).map (fun k =>
    ⟨k, k * (size - overlap),
     min (k * (size - overlap) + size) text.length,
     (text.drop (k * (size - overlap))).take size⟩)

/-- Modelled from the spec: `TextChunker.split` (spec section 4.4), which
has no implementation under src/.  Follows the spec's words exactly:
`overlap` must be less than `size`, otherwise a `ConfigError`; chunk `k`
starts at `k * (size - overlap)`; generation stops at the first chunk whose
`char_start` would be at or past the end of the text. -/
def splitText (text : List Char) (size overlap : Nat) :
    Except ConfigError (List TextChunk) :=
  if size ≤ overlap then .error .overlapGeSize
  else .ok (chunkList text size overlap)

/-! ## The region filter of src/app_exl1.py (lines 204-239) -/

/-- The fixed region vocabulary (src/app_exl1.py line 158). -/
def regionsVocab : List String :=
  ["china", "korea", "taiwan", "hong kong", "india", "us", "uk"]

/-- Whether `pat` occurs as a contiguous substring starting at the head of
`s` (helper for the substring test). -/
def charsStartWith : List Char → List Char → Bool
  | [], _ => true
  | _ :: _, [] => false
  | a :: as, b :: bs => a = b && charsStartWith as bs

/-- Whether `pat` occurs as a contiguous substring of `s`; the semantics of
`Series.str.contains(pat)` for the plain (regex-metacharacter-free) region
words the code passes it, and of Python `pat in s`. -/
def containsChars (s pat : List Char) : Bool :=
  match s with
  | [] => pat.isEmpty
  | _ :: tl => charsStartWith pat s || containsChars tl pat

/-- Substring test on strings. -/
def strContainsB (s pat : String) : Bool := containsChars s.data pat.data

/-- A row of the `filtered` frame as seen by the region filter: its
`RegionsDetected` text plus the identifying columns the frame carries. -/
structure RegionRow where
  number : String
  title : String
  regionsDetected : String
deriving DecidableEq

/-- `region_present` (src/app_exl1.py lines 207-212): the sorted set of
vocabulary regions occurring in some row's `RegionsDetected`. -/
def regionPresent (rows : List RegionRow) : List String :=
  pySorted (regionsVocab.filter
    (fun r => rows.any (fun row => strContainsB row.regionsDetected r)))

/-- The region mask application (src/app_exl1.py lines 234-241): when the
selection is non-empty and differs in size from `region_present`, keep only
the rows whose `RegionsDetected` contains at least one selected region;
otherwise leave the frame unchanged.  An empty selection list also covers
the `selected_regions is None` case (no region checkboxes offered), where
the code likewise applies no restriction. -/
def applyRegionMask (rows : List RegionRow) (sel : List String) : List RegionRow :=
  if !sel.isEmpty && sel.length != (regionPresent rows).length then
    rows.filter (fun row => sel.any (fun r => strContainsB row.regionsDetected r))
  else rows

/-! ## The learning-item normalizer of src/app_exl2.py (lines 147-237)

The regex extraction of roles/groups/practices from the member-selection
cell (`extract_roles`, `extract_org_groups_practices`) is opaque to claim
C10, which is about the grouping, aggregation and cleaning logic; the
normalizer below therefore takes the per-cell attribute parser as a
parameter `pa` (groups, practices, roles), and every theorem holds for all
parsers. -/

/-- One data row of the learning-item export after the `astype(str)`
extraction of columns A..E (src/app_exl2.py lines 135-139). -/
structure LearnRow where
  prescriptive : String
  memberCriteria : String
  courseId : String
  courseTitle : String
  curriculumTitle : String
deriving DecidableEq

instance : Inhabited LearnRow := ⟨⟨"", "", "", "", ""⟩⟩

/-- The grouping key of a row: `rule.strip()` (src/app_exl2.py line 149). -/
def keyOf (row : LearnRow) : String := pyStrip row.prescriptive

/-- `rule_to_indices` (src/app_exl2.py lines 147-150): a Python dict built
by insertion, here in closed form - the keys in first-occurrence order,
each mapped to the increasing list of indices of the rows whose stripped
rule equals the key. -/
def ruleGroups (rows : List LearnRow) : List (String × List Nat) :=
  (pyUniqueFirst (rows.map keyOf)).map (fun k =>
    (k, (List.range rows.length).filter (fun i => keyOf (rows.getD i default) = k)))

/-- The groups component of `parse_row_attributes` for row `i`. -/
def rowGroups (pa : String → List String × List String × List String)
    (rows : List LearnRow) (i : Nat) : List String :=
  (pa (rows.getD i default).memberCriteria).1

/-- The practices component of `parse_row_attributes` for row `i`. -/
def rowPractices (pa : String → List String × List String × List String)
    (rows : List LearnRow) (i : Nat) : List String :=
  (pa (rows.getD i default).memberCriteria).2.1

/-- The roles component of `parse_row_attributes` for row `i`. -/
def rowRoles (pa : String → List String × List String × List String)
    (rows : List LearnRow) (i : Nat) : List String :=
  (pa (rows.getD i default).memberCriteria).2.2

/-- The course record appended for index `i` inside the multi-occurrence
branch (src/app_exl2.py lines 190-202): title falls back to the rule key,
attributes are the sorted per-row lists. -/
def multiCourseRec (pa : String → List String × List String × List String)
    (rows : List LearnRow) (k : String) (i : Nat) : LearnRec :=
  let t := pyStrip (rows.getD i default).courseTitle
  ⟨if t = "" then k else t,
   pyStrip (rows.getD i default).courseId,
   "course",
   pySorted (rowGroups pa rows i),
   pySorted (rowPractices pa rows i),
   pySorted (rowRoles pa rows i),
   [i]⟩

/-- The course record appended for a single-occurrence rule
(src/app_exl2.py lines 203-220): title falls back to the curriculum title,
then to the stripped prescriptive cell. -/
def singleCourseRec (pa : String → List String × List String × List String)
    (rows : List LearnRow) (i : Nat) : LearnRec :=
  let t := pyStrip (rows.getD i default).courseTitle
  let fallback := pyStrip (rows.getD i default).curriculumTitle
  ⟨if t ≠ "" then t else if fallback ≠ "" then fallback
    else pyStrip (rows.getD i default).prescriptive,
   pyStrip (rows.getD i default).courseId,
   "course",
   pySorted (rowGroups pa rows i),
   pySorted (rowPractices pa rows i),
   pySorted (rowRoles pa rows i),
   [i]⟩

/-- The curriculum record built for a non-empty rule with several rows
(src/app_exl2.py lines 163-188): title is the first non-empty curriculum
title (falling back to the rule key), attributes are the sorted unions of
the per-row attributes. -/
def curriculumRec (pa : String → List String × List String × List String)
    (rows : List LearnRow) (k : String) (idxs : List Nat) : LearnRec :=
  let currTitle :=
    match idxs.find? (fun i => pyStrip (rows.getD i default).curriculumTitle ≠ "") with
    | some i => pyStrip (rows.getD i default).curriculumTitle
    | none => k
  ⟨currTitle, "", "curriculum",
   pySortedSet (idxs.flatMap (rowGroups pa rows)),
   pySortedSet (idxs.flatMap (rowPractices pa rows)),
   pySortedSet (idxs.flatMap (rowRoles pa rows)),
   idxs⟩

/-- The records emitted for one entry of `rule_to_indices`
(src/app_exl2.py lines 160-220): a curriculum plus one course per row when
the non-empty rule occurs more than once, otherwise a single course for the
first (and in the reachable cases only) index.  The `[]` case is
unreachable - every dict entry holds at least one index. -/
def emitForRule (pa : String → List String × List String × List String)
    (rows : List LearnRow) (k : String) (idxs : List Nat) : List LearnRec :=
  if k ≠ "" ∧ 1 < idxs.length then
    curriculumRec pa rows k idxs :: idxs.map (multiCourseRec pa rows k)
  else
    match idxs with
    | [] => []
    | i :: _ => [singleCourseRec pa rows i]

/-- The full `records` list (src/app_exl2.py lines 152-220). -/
def buildRecords (pa : String → List String × List String × List String)
    (rows : List LearnRow) : List LearnRec :=
  (ruleGroups rows).flatMap (fun b => emitForRule pa rows b.1 b.2)

/-- The list-field normalization of the cleaning pass
(src/app_exl2.py line 236): strip every item and drop the empties. -/
def cleanStrList (l : List String) : List String :=
  (l.map pyStrip).filter (fun s => s ≠ "")

/-- The cleaning pass (src/app_exl2.py lines 225-237): drop records whose
stripped title is empty and normalize the three list fields. -/
def pyCleanRecords (recs : List LearnRec) : List LearnRec :=
  (recs.filter (fun r => pyStrip r.title ≠ "")).map (fun r =>
    { r with groups := cleanStrList r.groups,
             practices := cleanStrList r.practices,
             roles := cleanStrList r.roles })

/-- The curriculum record carrying exactly the source indices `idxs`. -/
def isCurFor (idxs : List Nat) (r : LearnRec) : Bool :=
  r.rtype == "curriculum" && r.srcIndices == idxs

/-- The course record carrying exactly the source index `i`. -/
def isCourseFor (i : Nat) (r : LearnRec) : Bool :=
  r.rtype == "course" && r.srcIndices == [i]

/-! ## Shared lemmas -/

/-- `to_int_safe` agrees pointwise with the specified coercion: the
exception paths of the body all land in the catch-all and degrade to
`none`. -/
theorem to_int_safe_eq_claimed (v : Value) : to_int_safe v = toIntClaimed v := by
  cases v with
  | strV s =>
    simp only [to_int_safe, to_int_safe_body, toIntClaimed, pyIsNa]
    by_cases h : pyStrip s = ""
    · simp [h]
    · simp only [h, if_false]
      rcases hf : pyFloatOfString (pyStrip s) with _ | ⟨num, scale⟩ <;> simp [hf]
  | nanV => rfl
  | intV n => rfl
  | floatV m e => rfl
  | otherV => rfl

/-- Boolean-mask indexing with the mask obtained by applying a predicate to
the same frame is exactly `List.filter`. -/
theorem dfBoolIndex_map (p : LearnRec → Bool) (l : List LearnRec) :
    dfBoolIndex l (l.map p) = l.filter p := by
  induction l with
  | nil => rfl
  | cons r rs ih =>
    by_cases hp : p r <;> simp [dfBoolIndex, List.filter_cons, hp, ih]

/-- An empty selection list lets every row through
`row_matches_filter_list`. -/
theorem row_matches_nil (row_list : List String) :
    row_matches_filter_list row_list [] = true := by
  simp [row_matches_filter_list]

/-- With every selection empty, the row predicate of the filter engine is
constantly true. -/
theorem rowPasses_empty (r : LearnRec) : rowPasses [] [] [] r = true := by
  simp [rowPasses, row_matches_nil]

/-- The filter evaluation is the `List.filter` of its row predicate. -/
theorem evaluateRecords_eq_filter (df : List LearnRec) (selP selG selR : List String) :
    evaluateRecords df selP selG selR = df.filter (rowPasses selP selG selR) := by
  unfold evaluateRecords dfCopy dfApplyMask
  exact dfBoolIndex_map _ df

/-- Filtering facts against the empty specification keeps everything. -/
theorem evaluateFacts_empty (facts : List SopRoleFact) :
    evaluateFacts facts .empty = facts := by
  unfold evaluateFacts
  refine List.filter_eq_self.mpr (fun f _ => ?_)
  simp [FilterSpec.empty, row_matches_nil]

/-! ## Claim theorems -/

/-- C2: the applicability-level coercion `to_int_safe` is total over every
kind of cell value and never raises: NaN and empty-after-strip strings
yield `none`; any other string is parsed as a float and truncated toward
zero, with `none` (not an exception) on parse failure; numeric values are
truncated toward zero; a non-numeric object degrades to `none` through the
catch-all.  Totality is the statement that the catch of the explicitly
exception-carrying body agrees with the pure claimed coercion on every
value. -/
theorem claim_C2_to_int_safe_total_coercion (v : Value) :
    to_int_safe v = toIntClaimed v :=
  to_int_safe_eq_claimed v

/-- C5: evaluating the filter engine with every dimension's selection empty
returns the input fact frame unchanged - an empty allowed set imposes no
restriction, so the identity holds for every input. -/
theorem claim_C5_empty_spec_identity (df : List LearnRec) :
    evaluateRecords df [] [] [] = df := by
  rw [evaluateRecords_eq_filter]
  exact List.filter_eq_self.mpr (fun r _ => rowPasses_empty r)

/-- C6: restricting the role dimension to `{X}` produces a subsequence of
the unrestricted evaluation (no fact is added and source order is
preserved, witnessed by `List.Sublist`), and every fact in the restricted
result has `role_name = X`. -/
theorem claim_C6_role_restriction_subsequence (facts : List SopRoleFact) (X : String) :
    (evaluateFacts facts ⟨[X], [], []⟩).Sublist (evaluateFacts facts .empty) ∧
    ∀ f ∈ evaluateFacts facts ⟨[X], [], []⟩, f.role_name = X := by
  constructor
  · rw [evaluateFacts_empty]
    exact List.filter_sublist facts
  · intro f hf
    rw [evaluateFacts, List.mem_filter] at hf
    have h := hf.2
    simp [row_matches_filter_list] at h
    exact h

/-- Witness for C6 at a concrete fact table: with one fact for role X and
one for role Y, the role-X restriction is a subsequence of the unrestricted
result and the kept fact indeed has role X. -/
theorem claim_C6_witness :
    (evaluateFacts
        [⟨"001", "T1", "BU", "ST", "X", "G", 1, "", []⟩,
         ⟨"002", "T2", "BU", "ST", "Y", "G", 2, "", []⟩] ⟨["X"], [], []⟩).Sublist
      (evaluateFacts
        [⟨"001", "T1", "BU", "ST", "X", "G", 1, "", []⟩,
         ⟨"002", "T2", "BU", "ST", "Y", "G", 2, "", []⟩] .empty) ∧
    (⟨"001", "T1", "BU", "ST", "X", "G", 1, "", []⟩ : SopRoleFact).role_name = "X" :=
  ⟨(claim_C6_role_restriction_subsequence
      [⟨"001", "T1", "BU", "ST", "X", "G", 1, "", []⟩,
       ⟨"002", "T2", "BU", "ST", "Y", "G", 2, "", []⟩] "X").1,
   (claim_C6_role_restriction_subsequence
      [⟨"001", "T1", "BU", "ST", "X", "G", 1, "", []⟩,
       ⟨"002", "T2", "BU", "ST", "Y", "G", 2, "", []⟩] "X").2
     ⟨"001", "T1", "BU", "ST", "X", "G", 1, "", []⟩ (by decide)⟩

/-- C7: the filter evaluation never mutates its input.  In the
state-threaded embedding - where `apply`, boolean indexing and `copy`, the
three pandas operations lines 293-301 of src/app_exl2.py perform, each pass
the frame they read through unchanged - the input frame after evaluation is
exactly the input, the result coincides with the plain evaluation, and the
result is a (freshly copied) subsequence of the input rather than a
modification of it. -/
theorem claim_C7_no_input_mutation (df : List LearnRec) (selP selG selR : List String) :
    (evaluateRecordsSt df selP selG selR).1 = df ∧
    (evaluateRecordsSt df selP selG selR).2 = evaluateRecords df selP selG selR ∧
    (evaluateRecordsSt df selP selG selR).2.Sublist df := by
  refine ⟨rfl, rfl, ?_⟩
  show evaluateRecords df selP selG selR |>.Sublist df
  rw [evaluateRecords_eq_filter]
  exact List.filter_sublist df

/-- C4: parsing a sheet fails with a `LayoutError` - producing no role
columns and no data rows - exactly when the grid has fewer than
`HEADER_COLS_ROW + 1 = 3` rows or no columns beyond the structural offset 4
(that is, fewer than 5 columns). -/
theorem claim_C4_layout_error_iff (g : Grid) (w : Nat) (hrect : RectGrid g w) :
    layoutFailed (parseSheet g) = true ↔ (g.length < 3 ∨ w ≤ 4) := by
  unfold parseSheet layoutFailed
  by_cases h1 : g.length ≤ 2
  · simp only [h1, if_true]
    constructor
    · intro _; left; omega
    · intro _; trivial
  · have h2 : 2 < g.length := by omega
    have hw : (g[2]?.getD ([] : List Value)).length = w := by
      rw [List.getElem?_eq_getElem h2]
      exact hrect _ (List.getElem_mem h2)
    by_cases h3 : w ≤ 4
    · simp [h1, hw, h3]
    · simp [h1, hw, h3]
      omega

/-- Witness for C4 at a concrete grid: a rectangular two-row sheet is
rejected. -/
theorem claim_C4_witness :
    layoutFailed (parseSheet [[Value.nanV], [Value.nanV]]) = true :=
  (claim_C4_layout_error_iff [[Value.nanV], [Value.nanV]] 1 (by decide)).mpr
    (Or.inl (by decide))

/-- Pointwise closed form of the forward-fill: position `i` of the filled
row is the last non-NaN cell among the first `i + 1` cells, with the
initial carry as fallback. -/
theorem ffillAux_getD (l : List Value) (carry : Option Value) (i : Nat)
    (h : i < l.length) :
    (ffillAux carry l).getD i .nanV =
      ((l.take (i + 1)).foldl (fun acc v => if pyIsNa v then acc else some v) carry).getD
        .nanV := by
  induction l generalizing carry i with
  | nil => simp at h
  | cons v vs ih =>
    cases i with
    | zero =>
      by_cases hna : pyIsNa v
      · simp [ffillAux, hna]
      · simp [ffillAux, hna]
    | succ j =>
      have hj : j < vs.length := by simpa using h
      by_cases hna : pyIsNa v
      · simpa [ffillAux, hna] using ih carry j hj
      · simpa [ffillAux, hna] using ih (some v) j hj

/-- Pointwise closed form of `ffillRow`. -/
theorem ffillRow_getD (l : List Value) (i : Nat) (h : i < l.length) :
    (ffillRow l).getD i .nanV = fillVal l i :=
  ffillAux_getD l none i h

/-- C3 (amended): pandas forward-fills only missing (NaN) group cells - a
NaN cell takes the last non-NaN value to its left and the naming step then
maps blank, `"nan"` and `"none"` renderings to `"Ungrouped"` - so the group
name at every in-range position is a function of the last non-NaN cell up
to that position; blank-but-present strings are not filled.  The claim's
five-position example holds when its blanks are missing cells: the group
row `[A, NaN, NaN, B, NaN]` yields `[A, A, A, B, B]` at all five positions,
role-column boundary playing no part. -/
theorem claim_C3_forward_fill_amended :
    (∀ (l : List Value) (i : Nat), i < l.length →
        groupNameAt l i = nameOfGroupCell (fillVal l i)) ∧
    (List.range 5).map
        (groupNameAt [.strV "A", .nanV, .nanV, .strV "B", .nanV]) =
      ["A", "A", "A", "B", "B"] := by
  constructor
  · intro l i h
    unfold groupNameAt
    rw [ffillRow_getD l i h]
  · decide

/-- Witness for the amended C3 at a concrete row and position. -/
theorem claim_C3_witness :
    0 < ([Value.nanV, Value.strV "G"] : List Value).length ∧
    groupNameAt [Value.nanV, Value.strV "G"] 0 =
      nameOfGroupCell (fillVal [Value.nanV, Value.strV "G"] 0) :=
  ⟨by decide, claim_C3_forward_fill_amended.1 [Value.nanV, Value.strV "G"] 0 (by decide)⟩

/-- C3 (counterexample): on the claim's own example grid read literally -
group row `["A", "", "", "B", ""]` with empty-string blanks - the code
yields `"Ungrouped"` at the blank positions (pandas ffill does not touch
non-NaN empty strings), not the last non-blank value to the left that the
claim requires. -/
theorem claim_C3_counterexample :
    (List.range 5).map
        (groupNameAt [.strV "A", .strV "", .strV "", .strV "B", .strV ""]) =
      ["A", "Ungrouped", "Ungrouped", "B", "Ungrouped"] ∧
    (List.range 5).map
        (claimedGroupName [.strV "A", .strV "", .strV "", .strV "B", .strV ""]) =
      ["A", "A", "A", "B", "B"] ∧
    (List.range 5).map
        (groupNameAt [.strV "A", .strV "", .strV "", .strV "B", .strV ""]) ≠
      (List.range 5).map
        (claimedGroupName [.strV "A", .strV "", .strV "", .strV "B", .strV ""]) := by
  decide

/-- C1 (amended): the two pipelines agree on a per-cell discipline but test
different conditions.  (i) In the app_exl pipeline a cell contributes to
exactly one of the three category views when its coerced value lies in
`{1, 2, 3}` and to none otherwise (values outside the set are dropped
silently); (ii) a data row appears in the category-`cat` view exactly when
its role cell coerces to `cat`; (iii) the preprocess_contexts pipeline
emits exactly one record per data row whose cell passes the literal
string test `str(value).strip() in {"1", "2", "3"}` - a strictly stronger
condition than coercing into `{1, 2, 3}`, as the counterexample shows. -/
theorem claim_C1_per_cell_facts :
    (∀ v : Value,
      (categoryValues.filter (fun c => to_int_safe v == some c)).length =
        if to_int_safe v ∈ ([some 1, some 2, some 3] : List (Option Int)) then 1 else 0) ∧
    (∀ (g : Grid) (col : Nat) (cat : Int) (row : List Value),
      row ∈ filteredRows g col cat ↔
        (row ∈ g.drop 3 ∧ to_int_safe (cellAt row col) = some cat)) ∧
    (∀ (g : Grid) (col : Nat),
      (sopsForCol g col).length =
        (g.drop 3).countP
          (fun row => decide (pyStrip (pyStr (cellAt row col)) ∈ (["1", "2", "3"] : List String)))) := by
  refine ⟨?_, ?_, ?_⟩
  · intro v
    rcases h : to_int_safe v with _ | k
    · simp [categoryValues]
    · by_cases h1 : k = 1
      · subst h1; simp [categoryValues]
      · by_cases h2 : k = 2
        · subst h2; simp [categoryValues]
        · by_cases h3 : k = 3
          · subst h3; simp [categoryValues]
          · simp [categoryValues, h1, h2, h3]
  · intro g col cat row
    unfold filteredRows
    rw [List.mem_filter]
    simp
  · intro g col
    simp [sopsForCol, List.countP_eq_length_filter]

/-- C1 (counterexample): a data cell holding the Python float `1.0` coerces
to the applicability level `1` - so the claim requires a fact for it - yet
the preprocess_contexts pipeline emits nothing for its (row, role column)
because `str(1.0).strip()` is `"1.0"`, which fails the literal membership
test; the app_exl pipeline keeps the row for category 1, exhibiting the
divergence between the two cited sources. -/
theorem claim_C1_counterexample :
    to_int_safe (.floatV 1 0) = some 1 ∧
    sopsForCol
        [[.strV "Groups", .nanV, .nanV, .nanV, .strV "G1"],
         [.nanV, .nanV, .nanV, .nanV, .nanV],
         [.strV "Business Unit", .strV "SOP Type", .strV "Number", .strV "Title", .strV "Role A"],
         [.strV "HR", .strV "Policy", .strV "001", .strV "Leave Policy", .floatV 1 0]] 4 = [] ∧
    filteredRows
        [[.strV "Groups", .nanV, .nanV, .nanV, .strV "G1"],
         [.nanV, .nanV, .nanV, .nanV, .nanV],
         [.strV "Business Unit", .strV "SOP Type", .strV "Number", .strV "Title", .strV "Role A"],
         [.strV "HR", .strV "Policy", .strV "001", .strV "Leave Policy", .floatV 1 0]] 4 1 =
      [[.strV "HR", .strV "Policy", .strV "001", .strV "Leave Policy", .floatV 1 0]] := by
  decide

/-- C9: for a region selection drawn from the regions present in the
current result set (the checkbox panel offers exactly those, so the
selection is a sublist of `region_present`), selecting all of them - or
none - applies no region restriction at all, so rows with an empty
`RegionsDetected` are retained; only a selection that is non-empty and
proper filters, and it then keeps exactly the rows whose `RegionsDetected`
contains at least one selected region as a substring. -/
theorem claim_C9_region_filter (rows : List RegionRow) (sel : List String)
    (hsub : sel.Sublist (regionPresent rows)) :
    ((sel = [] ∨ sel = regionPresent rows) → applyRegionMask rows sel = rows) ∧
    (sel ≠ [] → sel ≠ regionPresent rows →
      applyRegionMask rows sel =
        rows.filter (fun row => sel.any (fun r => strContainsB row.regionsDetected r))) := by
  constructor
  · rintro (rfl | rfl)
    · simp [applyRegionMask]
    · simp [applyRegionMask]
  · intro hne hnotall
    have hlen : sel.length ≠ (regionPresent rows).length := fun hl =>
      hnotall (hsub.eq_of_length hl)
    have hemp : sel.isEmpty = false := by
      cases sel with
      | nil => exact absurd rfl hne
      | cons a t => rfl
    have hbne : (sel.length != (regionPresent rows).length) = true := by
      simpa using hlen
    simp [applyRegionMask, hemp, hbne]

/-- Witness for C9 at a concrete table: with regions china and korea
present and only china selected, the mask keeps exactly the china row. -/
theorem claim_C9_witness :
    applyRegionMask
        [⟨"001", "T1", "china"⟩, ⟨"002", "T2", "korea"⟩, ⟨"003", "T3", ""⟩]
        ["china"] =
      ([⟨"001", "T1", "china"⟩, ⟨"002", "T2", "korea"⟩, ⟨"003", "T3", ""⟩] :
          List RegionRow).filter
        (fun row => (["china"] : List String).any
          (fun r => strContainsB row.regionsDetected r)) ∧
    applyRegionMask
        [⟨"001", "T1", "china"⟩, ⟨"002", "T2", "korea"⟩, ⟨"003", "T3", ""⟩]
        ["china"] = [⟨"001", "T1", "china"⟩] :=
  ⟨((claim_C9_region_filter
        [⟨"001", "T1", "china"⟩, ⟨"002", "T2", "korea"⟩, ⟨"003", "T3", ""⟩]
        ["china"] (by decide)).2 (by decide) (by decide)),
   by decide⟩

/-- Reading a mapped range at an in-bounds position. -/
theorem rangeMap_getD (n k : Nat) (f : Nat → TextChunk) (h : k < n) :
    ((List.range n).map f).getD k default = f k := by
  rw [List.getD_eq_getElem?_getD, List.getElem?_map, List.getElem?_range h]
  rfl

/-- A window index is generated exactly when its start position lies
strictly before the end of the text. -/
theorem numChunks_lt_iff (len step k : Nat) (hstep : 0 < step) :
    k < numChunks len step ↔ k * step < len := by
  unfold numChunks
  rw [Nat.lt_iff_add_one_le, Nat.le_div_iff_mul_le hstep]
  have hmul : (k + 1) * step = k * step + step := by ring
  rw [hmul]
  have ha : 0 ≤ k * step := Nat.zero_le _
  generalize k * step = a at *
  omega

/-- Length of the generated chunk sequence. -/
theorem chunkList_length (text : List Char) (size overlap : Nat) :
    (chunkList text size overlap).length = numChunks text.length (size - overlap) := by
  simp [chunkList]

/-- The chunk at an in-bounds index. -/
theorem chunkList_getD (text : List Char) (size overlap k : Nat)
    (h : k < numChunks text.length (size - overlap)) :
    (chunkList text size overlap).getD k default =
      ⟨k, k * (size - overlap),
       min (k * (size - overlap) + size) text.length,
       (text.drop (k * (size - overlap))).take size⟩ :=
  rangeMap_getD _ k _ h

/-- C8 (amended): with `overlap < size`, `splitText` yields the sliding
window in which chunk `k` starts at `k * (size - overlap)`, a chunk exists
exactly while its start lies before the end of the text, every character
belongs to at least one chunk, each chunk ends at
`min (start + size, len)` (so only trailing chunks are short), and two
consecutive chunks overlap by exactly `overlap` characters whenever the
earlier one has full size.  The result is a single chunk exactly when the
text is non-empty and no longer than `size - overlap` (not whenever
`size ≥ len`), and `overlap ≥ size` fails with a `ConfigError`. -/
theorem claim_C8_chunker_amended (text : List Char) (size overlap : Nat) :
    (size ≤ overlap → splitText text size overlap = .error .overlapGeSize) ∧
    (overlap < size →
      splitText text size overlap = .ok (chunkList text size overlap) ∧
      (∀ k, k < (chunkList text size overlap).length →
        ((chunkList text size overlap).getD k default).char_start =
            k * (size - overlap) ∧
        ((chunkList text size overlap).getD k default).char_end =
            min (k * (size - overlap) + size) text.length) ∧
      (∀ k, k < (chunkList text size overlap).length ↔
        k * (size - overlap) < text.length) ∧
      (∀ c, c < text.length → ∃ k, k < (chunkList text size overlap).length ∧
        ((chunkList text size overlap).getD k default).char_start ≤ c ∧
        c < ((chunkList text size overlap).getD k default).char_end) ∧
      (∀ k, k + 1 < (chunkList text size overlap).length →
        ((chunkList text size overlap).getD k default).char_end =
            ((chunkList text size overlap).getD k default).char_start + size →
        ((chunkList text size overlap).getD k default).char_end =
            ((chunkList text size overlap).getD (k + 1) default).char_start + overlap) ∧
      ((chunkList text size overlap).length = 1 ↔
        0 < text.length ∧ text.length ≤ size - overlap)) := by
  constructor
  · intro h
    simp [splitText, h]
  · intro h
    have hng : ¬ size ≤ overlap := by omega
    have hstep : 0 < size - overlap := by omega
    have hstepsize : size - overlap ≤ size := Nat.sub_le _ _
    refine ⟨by simp [splitText, hng], ?_, ?_, ?_, ?_, ?_⟩
    · intro k hk
      rw [chunkList_length] at hk
      rw [chunkList_getD text size overlap k hk]
      exact ⟨rfl, rfl⟩
    · intro k
      rw [chunkList_length]
      exact numChunks_lt_iff text.length (size - overlap) k hstep
    · intro c hc
      have hdm := Nat.div_add_mod c (size - overlap)
      have hmlt : c % (size - overlap) < size - overlap := Nat.mod_lt c hstep
      have hle : (c / (size - overlap)) * (size - overlap) ≤ c := Nat.div_mul_le_self c _
      have hup : c < (c / (size - overlap)) * (size - overlap) + (size - overlap) := by
        have hcomm : (c / (size - overlap)) * (size - overlap) =
            (size - overlap) * (c / (size - overlap)) := Nat.mul_comm _ _
        omega
      have hkn : c / (size - overlap) < numChunks text.length (size - overlap) := by
        rw [numChunks_lt_iff _ _ _ hstep]
        omega
      refine ⟨c / (size - overlap), ?_, ?_, ?_⟩
      · rw [chunkList_length]; exact hkn
      · rw [chunkList_getD text size overlap _ hkn]
        exact hle
      · rw [chunkList_getD text size overlap _ hkn]
        show c < min ((c / (size - overlap)) * (size - overlap) + size) text.length
        rw [Nat.lt_min]
        omega
    · intro k hk1 hfull
      rw [chunkList_length] at hk1
      have hk : k < numChunks text.length (size - overlap) := by omega
      rw [chunkList_getD text size overlap k hk] at hfull ⊢
      rw [chunkList_getD text size overlap (k + 1) hk1]
      rw [hfull]
      show k * (size - overlap) + size = (k + 1) * (size - overlap) + overlap
      have hmul : (k + 1) * (size - overlap) = k * (size - overlap) + (size - overlap) := by
        ring
      rw [hmul]
      omega
    · rw [chunkList_length]
      have h0 := numChunks_lt_iff text.length (size - overlap) 0 hstep
      have h1 := numChunks_lt_iff text.length (size - overlap) 1 hstep
      simp only [Nat.zero_mul, Nat.one_mul] at h0 h1
      omega

/-- Witness for the amended C8 on the spec's own example parameters: a
25-character text with `size = 10`, `overlap = 3` - the split succeeds and
covers every character. -/
theorem claim_C8_witness :
    3 < 10 ∧
    splitText ("abcdefghijklmnopqrstuvwxy".data) 10 3 =
      Except.ok (chunkList ("abcdefghijklmnopqrstuvwxy".data) 10 3) ∧
    (∀ c, c < ("abcdefghijklmnopqrstuvwxy".data).length →
      ∃ k, k < (chunkList ("abcdefghijklmnopqrstuvwxy".data) 10 3).length ∧
        ((chunkList ("abcdefghijklmnopqrstuvwxy".data) 10 3).getD k default).char_start ≤ c ∧
        c < ((chunkList ("abcdefghijklmnopqrstuvwxy".data) 10 3).getD k default).char_end) := by
  have h := (claim_C8_chunker_amended ("abcdefghijklmnopqrstuvwxy".data) 10 3).2 (by decide)
  exact ⟨by decide, h.1, h.2.2.2.1⟩

/-- C8 (counterexample): on an 8-character text with `size = 10`,
`overlap = 3`, the spec's stop rule generates a second chunk starting at 7,
although `size ≥ len(text)` - so the split does not degenerate to a single
chunk - and the two consecutive chunks share only one character, not
`overlap = 3`. -/
theorem claim_C8_counterexample :
    ("abcdefgh".data).length ≤ 10 ∧
    splitText ("abcdefgh".data) 10 3 =
      Except.ok [⟨0, 0, 8, "abcdefgh".data⟩, ⟨1, 7, 8, ['h']⟩] ∧
    ([⟨0, 0, 8, "abcdefgh".data⟩, ⟨1, 7, 8, ['h']⟩] : List TextChunk).length ≠ 1 ∧
    (8 : Nat) - 7 ≠ 3 := by
  decide

/-! ## Lemmas for the learning-item normalizer -/

/-- Membership in the insertion fold behind `pyUniqueFirst`. -/
theorem mem_pyUniqueFirst_aux (l : List String) (acc : List String) (x : String) :
    (x ∈ l.foldl (fun acc k => if k ∈ acc then acc else acc ++ [k]) acc) ↔
      (x ∈ acc ∨ x ∈ l) := by
  induction l generalizing acc with
  | nil => simp
  | cons k t ih =>
    rw [List.foldl_cons, ih]
    by_cases hk : k ∈ acc
    · rw [if_pos hk]
      simp only [List.mem_cons]
      constructor
      · tauto
      · rintro (h | heq | h)
        · exact Or.inl h
        · exact Or.inl (heq ▸ hk)
        · exact Or.inr h
    · rw [if_neg hk]
      simp only [List.mem_append, List.mem_singleton, List.mem_cons]
      tauto

/-- `pyUniqueFirst` keeps exactly the members of its input. -/
theorem mem_pyUniqueFirst (l : List String) (x : String) :
    x ∈ pyUniqueFirst l ↔ x ∈ l := by
  unfold pyUniqueFirst
  rw [mem_pyUniqueFirst_aux]
  simp

/-- The insertion fold preserves freedom from duplicates. -/
theorem nodup_pyUniqueFirst_aux (l : List String) (acc : List String) (h : acc.Nodup) :
    (l.foldl (fun acc k => if k ∈ acc then acc else acc ++ [k]) acc).Nodup := by
  induction l generalizing acc with
  | nil => exact h
  | cons k t ih =>
    rw [List.foldl_cons]
    apply ih
    by_cases hk : k ∈ acc
    · rwa [if_pos hk]
    · rw [if_neg hk, List.nodup_append]
      refine ⟨h, List.nodup_singleton k, ?_⟩
      intro a ha hb
      rw [List.mem_singleton] at hb
      subst hb
      exact hk ha

/-- `pyUniqueFirst` is duplicate-free. -/
theorem nodup_pyUniqueFirst (l : List String) : (pyUniqueFirst l).Nodup :=
  nodup_pyUniqueFirst_aux l [] List.nodup_nil

/-- Membership in `ruleGroups`: a pair belongs to it exactly when its key
occurs among the stripped rules and its index list is that key's bucket. -/
theorem mem_ruleGroups (rows : List LearnRow) (k : String) (idxs : List Nat) :
    (k, idxs) ∈ ruleGroups rows ↔
      k ∈ pyUniqueFirst (rows.map keyOf) ∧
      idxs = (List.range rows.length).filter (fun i => keyOf (rows.getD i default) = k) := by
  unfold ruleGroups
  rw [List.mem_map]
  constructor
  · rintro ⟨a, ha, heq⟩
    cases heq
    exact ⟨ha, rfl⟩
  · rintro ⟨h1, rfl⟩
    exact ⟨k, h1, rfl⟩

/-- Membership in a key's bucket. -/
theorem mem_bucketIdx (rows : List LearnRow) (k : String) (i : Nat) :
    (i ∈ (List.range rows.length).filter (fun i => keyOf (rows.getD i default) = k)) ↔
      (i < rows.length ∧ keyOf (rows.getD i default) = k) := by
  rw [List.mem_filter, List.mem_range]
  simp

/-- `getD` with the default row at an in-bounds index. -/
theorem rows_getD_eq (rows : List LearnRow) (i : Nat) (h : i < rows.length) :
    rows.getD i default = rows[i] := by
  rw [List.getD_eq_getElem?_getD, List.getElem?_eq_getElem h]
  rfl

/-- Every key of `ruleGroups` has a non-empty bucket. -/
theorem bucket_ne_nil (rows : List LearnRow) (k : String)
    (hk : k ∈ pyUniqueFirst (rows.map keyOf)) :
    (List.range rows.length).filter (fun i => keyOf (rows.getD i default) = k) ≠ [] := by
  rw [mem_pyUniqueFirst, List.mem_map] at hk
  obtain ⟨row, hrow, hkey⟩ := hk
  rw [List.mem_iff_getElem] at hrow
  obtain ⟨i, hi, hval⟩ := hrow
  have hmem : i ∈ (List.range rows.length).filter
      (fun i => keyOf (rows.getD i default) = k) :=
    (mem_bucketIdx rows k i).mpr ⟨hi, by rw [rows_getD_eq rows i hi, hval]; exact hkey⟩
  exact List.ne_nil_of_mem hmem

/-- Two entries of `ruleGroups` with the same bucket have the same key. -/
theorem key_eq_of_same_bucket (rows : List LearnRow) (k₁ k₂ : String) (idxs : List Nat)
    (h₁ : (k₁, idxs) ∈ ruleGroups rows) (h₂ : (k₂, idxs) ∈ ruleGroups rows) :
    k₁ = k₂ := by
  rw [mem_ruleGroups] at h₁ h₂
  obtain ⟨hk₁, hb₁⟩ := h₁
  obtain ⟨hk₂, hb₂⟩ := h₂
  have hne : idxs ≠ [] := by
    rw [hb₁]
    exact bucket_ne_nil rows k₁ hk₁
  obtain ⟨i, hi⟩ := List.exists_mem_of_ne_nil idxs hne
  have m₁ := (mem_bucketIdx rows k₁ i).mp (hb₁ ▸ hi)
  have m₂ := (mem_bucketIdx rows k₂ i).mp (hb₂ ▸ hi)
  rw [← m₁.2, ← m₂.2]

/-- `ruleGroups` has pairwise distinct entries. -/
theorem nodup_ruleGroups (rows : List LearnRow) : (ruleGroups rows).Nodup := by
  unfold ruleGroups
  refine List.Nodup.map ?_ (nodup_pyUniqueFirst _)
  intro a b hab
  exact congrArg Prod.fst hab

/-- Buckets are increasing lists of distinct indices. -/
theorem bucket_nodup (rows : List LearnRow) (k : String) :
    ((List.range rows.length).filter
        (fun i => keyOf (rows.getD i default) = k)).Nodup :=
  (List.nodup_range rows.length).filter _

/-- Summing a function over a list in which one designated element carries
the whole sum: every other element contributes zero. -/
theorem sum_map_eq_of_single {α : Type} [DecidableEq α] (l : List α) (g : α → Nat) (b : α)
    (hmem : b ∈ l) (hcount : l.count b = 1) (hzero : ∀ x ∈ l, x ≠ b → g x = 0) :
    (l.map g).sum = g b := by
  induction l with
  | nil => simp at hmem
  | cons a t ih =>
    rw [List.map_cons, List.sum_cons]
    by_cases hab : a = b
    · subst hab
      rw [List.count_cons_self] at hcount
      have hbt : a ∉ t := List.count_eq_zero.mp (by omega)
      have hsum : (t.map g).sum = 0 := by
        apply List.sum_eq_zero
        intro x hx
        rw [List.mem_map] at hx
        obtain ⟨y, hy, rfl⟩ := hx
        exact hzero y (List.mem_cons_of_mem _ hy) (fun hyb => hbt (hyb ▸ hy))
      omega
    · have hga : g a = 0 := hzero a (List.mem_cons_self a t) hab
      have hbt : b ∈ t := by
        rcases List.mem_cons.mp hmem with h | h
        · exact absurd h.symm hab
        · exact h
      have hcount' : t.count b = 1 := by
        rw [List.count_cons] at hcount
        simpa [hab] using hcount
      rw [hga, ih hbt hcount' (fun x hx hxb => hzero x (List.mem_cons_of_mem _ hx) hxb)]
      omega

/-- Filtering the multi-branch course records for a given source index
counts the occurrences of that index. -/
theorem filter_courseFor_map (pa : String → List String × List String × List String)
    (rows : List LearnRow) (k : String) (idxs : List Nat) (i₀ : Nat) :
    ((idxs.map (multiCourseRec pa rows k)).filter (isCourseFor i₀)).length =
      idxs.count i₀ := by
  induction idxs with
  | nil => rfl
  | cons i t ih =>
    rw [List.map_cons, List.filter_cons, List.count_cons]
    have hpred : isCourseFor i₀ (multiCourseRec pa rows k i) = (i == i₀) := by
      simp [isCourseFor, multiCourseRec]
    rw [hpred]
    by_cases hii : i = i₀
    · simp only [hii, beq_self_eq_true, if_true, List.length_cons, ih]
    · have hne : (i == i₀) = false := by simpa using hii
      simp only [hne, Bool.false_eq_true, if_false, ih]
      omega

/-- Per-block curriculum count: a block contributes one curriculum record
with source indices `idxs₀` exactly when it is the multi-occurrence block
of a non-empty rule with those indices. -/
theorem block_curriculum_count (pa : String → List String × List String × List String)
    (rows : List LearnRow) (k : String) (idxs idxs₀ : List Nat) :
    ((emitForRule pa rows k idxs).filter (isCurFor idxs₀)).length =
      if k ≠ "" ∧ 1 < idxs.length ∧ idxs = idxs₀ then 1 else 0 := by
  unfold emitForRule
  by_cases hg : k ≠ "" ∧ 1 < idxs.length
  · rw [if_pos hg, List.filter_cons]
    have hcur : isCurFor idxs₀ (curriculumRec pa rows k idxs) = (idxs == idxs₀) := by
      simp [isCurFor, curriculumRec]
    have hcourses :
        ((idxs.map (multiCourseRec pa rows k)).filter (isCurFor idxs₀)).length = 0 := by
      rw [List.length_eq_zero, List.filter_eq_nil_iff]
      intro r hr
      rw [List.mem_map] at hr
      obtain ⟨i, _, rfl⟩ := hr
      simp [isCurFor, multiCourseRec]
    rw [hcur]
    by_cases hidx : idxs = idxs₀
    · subst hidx
      simp only [beq_self_eq_true, if_true, List.length_cons, hcourses]
      rw [if_pos ⟨hg.1, hg.2, trivial⟩]
    · have hne : (idxs == idxs₀) = false := by simpa using hidx
      simp only [hne, Bool.false_eq_true, if_false, hcourses]
      rw [if_neg (by tauto)]
  · rw [if_neg hg]
    have hcond : ¬ (k ≠ "" ∧ 1 < idxs.length ∧ idxs = idxs₀) := by tauto
    rw [if_neg hcond]
    cases idxs with
    | nil => rfl
    | cons i t =>
      have : isCurFor idxs₀ (singleCourseRec pa rows i) = false := by
        simp [isCurFor, singleCourseRec]
      simp [List.filter_cons, this]

/-- A block whose bucket does not contain `i₀` contributes no course record
for `i₀`, in either branch. -/
theorem block_course_zero (pa : String → List String × List String × List String)
    (rows : List LearnRow) (k : String) (idxs : List Nat) (i₀ : Nat)
    (hni : i₀ ∉ idxs) :
    ((emitForRule pa rows k idxs).filter (isCourseFor i₀)).length = 0 := by
  unfold emitForRule
  by_cases hg : k ≠ "" ∧ 1 < idxs.length
  · rw [if_pos hg, List.filter_cons]
    have hcur : isCourseFor i₀ (curriculumRec pa rows k idxs) = false := by
      simp [isCourseFor, curriculumRec]
    rw [hcur]
    simp only [Bool.false_eq_true, if_false]
    rw [filter_courseFor_map]
    exact List.count_eq_zero.mpr hni
  · rw [if_neg hg]
    cases idxs with
    | nil => rfl
    | cons i t =>
      have hne : i ≠ i₀ := fun h => hni (h ▸ List.mem_cons_self i t)
      have hf : isCourseFor i₀ (singleCourseRec pa rows i) = false := by
        simp [isCourseFor, singleCourseRec, hne]
      simp [List.filter_cons, hf]

/-- The multi-occurrence block of a rule contributes exactly one course
record per bucket index. -/
theorem block_course_multi (pa : String → List String × List String × List String)
    (rows : List LearnRow) (k : String) (idxs : List Nat) (i₀ : Nat)
    (hg : k ≠ "" ∧ 1 < idxs.length) (hnodup : idxs.Nodup) (hmem : i₀ ∈ idxs) :
    ((emitForRule pa rows k idxs).filter (isCourseFor i₀)).length = 1 := by
  unfold emitForRule
  rw [if_pos hg, List.filter_cons]
  have hcur : isCourseFor i₀ (curriculumRec pa rows k idxs) = false := by
    simp [isCourseFor, curriculumRec]
  rw [hcur]
  simp only [Bool.false_eq_true, if_false]
  rw [filter_courseFor_map]
  exact List.count_eq_one_of_mem hnodup hmem

/-- A singleton block contributes exactly one course record for its
index. -/
theorem block_course_single (pa : String → List String × List String × List String)
    (rows : List LearnRow) (k : String) (i₀ : Nat) :
    ((emitForRule pa rows k [i₀]).filter (isCourseFor i₀)).length = 1 := by
  unfold emitForRule
  have hg : ¬ (k ≠ "" ∧ 1 < ([i₀] : List Nat).length) := by simp
  rw [if_neg hg]
  have hf : isCourseFor i₀ (singleCourseRec pa rows i₀) = true := by
    simp [isCourseFor, singleCourseRec]
  simp [List.filter_cons, hf]

/-- The filtered record count decomposes into per-block counts. -/
theorem buildRecords_filter_length (pa : String → List String × List String × List String)
    (rows : List LearnRow) (P : LearnRec → Bool) :
    ((buildRecords pa rows).filter P).length =
      ((ruleGroups rows).map
        (fun b => ((emitForRule pa rows b.1 b.2).filter P).length)).sum := by
  unfold buildRecords
  rw [List.filter_flatMap, List.length_flatMap]
  rfl

/-- An index of one rule's bucket belongs to no other rule's bucket. -/
theorem not_mem_other_bucket (rows : List LearnRow) (k k' : String)
    (idxs idxs' : List Nat) (i : Nat)
    (h : (k, idxs) ∈ ruleGroups rows) (h' : (k', idxs') ∈ ruleGroups rows)
    (hne : (k', idxs') ≠ (k, idxs)) (hi : i ∈ idxs) : i ∉ idxs' := by
  intro hi'
  have hb := ((mem_ruleGroups rows k idxs).mp h).2
  have hb' := ((mem_ruleGroups rows k' idxs').mp h').2
  have e1 : keyOf (rows.getD i default) = k :=
    ((mem_bucketIdx rows k i).mp (hb ▸ hi)).2
  have e2 : keyOf (rows.getD i default) = k' :=
    ((mem_bucketIdx rows k' i).mp (hb' ▸ hi')).2
  have hkk : k' = k := by rw [← e1, ← e2]
  subst hkk
  have hii : idxs' = idxs := by rw [hb, hb']
  exact hne (by rw [hii])

/-- Exactly one curriculum record in the whole output carries the source
indices of a non-empty rule occurring more than once. -/
theorem total_curriculum_count (pa : String → List String × List String × List String)
    (rows : List LearnRow) (k : String) (idxs : List Nat)
    (hmem : (k, idxs) ∈ ruleGroups rows) (hk : k ≠ "") (hlen : 1 < idxs.length) :
    ((buildRecords pa rows).filter (isCurFor idxs)).length = 1 := by
  rw [buildRecords_filter_length]
  rw [sum_map_eq_of_single _ _ (k, idxs) hmem
      (List.count_eq_one_of_mem (nodup_ruleGroups rows) hmem) ?_]
  · rw [block_curriculum_count, if_pos ⟨hk, hlen, rfl⟩]
  · rintro ⟨k', idxs'⟩ hx hxe
    rw [block_curriculum_count, if_neg ?_]
    rintro ⟨hk', hlen', hidx⟩
    subst hidx
    have hkk := key_eq_of_same_bucket rows k' k idxs' hx hmem
    exact hxe (by rw [hkk])

/-- Exactly one course record in the whole output carries source index `i`
of a non-empty multi-occurrence rule. -/
theorem total_course_count_multi (pa : String → List String × List String × List String)
    (rows : List LearnRow) (k : String) (idxs : List Nat) (i : Nat)
    (hmem : (k, idxs) ∈ ruleGroups rows) (hk : k ≠ "") (hlen : 1 < idxs.length)
    (hi : i ∈ idxs) :
    ((buildRecords pa rows).filter (isCourseFor i)).length = 1 := by
  rw [buildRecords_filter_length]
  rw [sum_map_eq_of_single _ _ (k, idxs) hmem
      (List.count_eq_one_of_mem (nodup_ruleGroups rows) hmem) ?_]
  · refine block_course_multi pa rows k idxs i ⟨hk, hlen⟩ ?_ hi
    rw [((mem_ruleGroups rows k idxs).mp hmem).2]
    exact bucket_nodup rows k
  · rintro ⟨k', idxs'⟩ hx hxe
    exact block_course_zero pa rows k' idxs' i
      (not_mem_other_bucket rows k k' idxs idxs' i hmem hx hxe hi)

/-- Exactly one course record in the whole output carries the index of a
rule occurring exactly once. -/
theorem total_course_count_single (pa : String → List String × List String × List String)
    (rows : List LearnRow) (k : String) (i : Nat)
    (hmem : (k, [i]) ∈ ruleGroups rows) :
    ((buildRecords pa rows).filter (isCourseFor i)).length = 1 := by
  rw [buildRecords_filter_length]
  rw [sum_map_eq_of_single _ _ (k, [i]) hmem
      (List.count_eq_one_of_mem (nodup_ruleGroups rows) hmem) ?_]
  · exact block_course_single pa rows k i
  · rintro ⟨k', idxs'⟩ hx hxe
    exact block_course_zero pa rows k' idxs' i
      (not_mem_other_bucket rows k k' [i] idxs' i hmem hx hxe (List.mem_singleton_self i))

/-- No curriculum record carries the indices of a rule occurring exactly
once. -/
theorem total_curriculum_zero_single (pa : String → List String × List String × List String)
    (rows : List LearnRow) (i : Nat) :
    ((buildRecords pa rows).filter (isCurFor [i])).length = 0 := by
  rw [buildRecords_filter_length]
  apply List.sum_eq_zero
  intro x hx
  rw [List.mem_map] at hx
  obtain ⟨⟨k', idxs'⟩, _, rfl⟩ := hx
  rw [block_curriculum_count, if_neg ?_]
  rintro ⟨_, hlen', hidx⟩
  rw [hidx] at hlen'
  simp at hlen'

/-- Every curriculum record of the output aggregates, deduplicates and
sorts the per-row attributes of exactly its own source indices. -/
theorem curriculum_fields (pa : String → List String × List String × List String)
    (rows : List LearnRow) :
    ∀ r ∈ buildRecords pa rows, r.rtype = "curriculum" →
      r.groups = pySortedSet (r.srcIndices.flatMap (rowGroups pa rows)) ∧
      r.practices = pySortedSet (r.srcIndices.flatMap (rowPractices pa rows)) ∧
      r.roles = pySortedSet (r.srcIndices.flatMap (rowRoles pa rows)) := by
  intro r hr hcur
  unfold buildRecords at hr
  rw [List.mem_flatMap] at hr
  obtain ⟨⟨k', idxs'⟩, _, hrblock⟩ := hr
  unfold emitForRule at hrblock
  by_cases hg : k' ≠ "" ∧ 1 < idxs'.length
  · rw [if_pos hg] at hrblock
    rcases List.mem_cons.mp hrblock with heq | hmem
    · subst heq
      exact ⟨rfl, rfl, rfl⟩
    · exfalso
      rw [List.mem_map] at hmem
      obtain ⟨i, _, rfl⟩ := hmem
      simp [multiCourseRec] at hcur
  · rw [if_neg hg] at hrblock
    cases idxs' with
    | nil => simp at hrblock
    | cons i t =>
      rw [List.mem_singleton] at hrblock
      subst hrblock
      exfalso
      simp [singleCourseRec] at hcur

/-- Every record surviving the cleaning pass has a non-blank title. -/
theorem clean_titles (recs : List LearnRec) :
    ∀ r ∈ pyCleanRecords recs, pyStrip r.title ≠ "" := by
  intro r hr
  unfold pyCleanRecords at hr
  rw [List.mem_map] at hr
  obtain ⟨r', hr', rfl⟩ := hr
  rw [List.mem_filter] at hr'
  simpa using hr'.2

/-- The cleaning pass keeps exactly the records with a non-blank title. -/
theorem clean_length (recs : List LearnRec) :
    (pyCleanRecords recs).length = recs.countP (fun r => pyStrip r.title ≠ "") := by
  unfold pyCleanRecords
  rw [List.length_map, List.countP_eq_length_filter]

/-- C10: in the learning-item normalizer, for every non-empty prescriptive
rule grouped over more than one row, the emitted records contain exactly
one curriculum record carrying that rule's source indices, its
Groups/Practices/Roles being the deduplicated sorted unions of the per-row
attributes, plus exactly one course record per constituent row; a rule
occurring exactly once yields exactly one course record and no curriculum;
and the cleaning pass keeps exactly the records whose stripped title is
non-empty.  Stated for every attribute parser `pa`, since the regex
extraction is orthogonal to the grouping logic. -/
theorem claim_C10_normalizer_shape
    (pa : String → List String × List String × List String) (rows : List LearnRow) :
    (∀ k idxs, (k, idxs) ∈ ruleGroups rows → k ≠ "" → 1 < idxs.length →
      ((buildRecords pa rows).filter (isCurFor idxs)).length = 1 ∧
      (∀ r ∈ buildRecords pa rows, r.rtype = "curriculum" → r.srcIndices = idxs →
        r.groups = pySortedSet (idxs.flatMap (rowGroups pa rows)) ∧
        r.practices = pySortedSet (idxs.flatMap (rowPractices pa rows)) ∧
        r.roles = pySortedSet (idxs.flatMap (rowRoles pa rows))) ∧
      (∀ i ∈ idxs, ((buildRecords pa rows).filter (isCourseFor i)).length = 1)) ∧
    (∀ k i, (k, [i]) ∈ ruleGroups rows →
      ((buildRecords pa rows).filter (isCourseFor i)).length = 1 ∧
      ((buildRecords pa rows).filter (isCurFor [i])).length = 0) ∧
    (∀ r ∈ pyCleanRecords (buildRecords pa rows), pyStrip r.title ≠ "") ∧
    ((pyCleanRecords (buildRecords pa rows)).length =
      (buildRecords pa rows).countP (fun r => pyStrip r.title ≠ "")) := by
  refine ⟨?_, ?_, clean_titles _, clean_length _⟩
  · intro k idxs hmem hk hlen
    refine ⟨total_curriculum_count pa rows k idxs hmem hk hlen, ?_, ?_⟩
    · intro r hr hcur hsrc
      have h := curriculum_fields pa rows r hr hcur
      rw [hsrc] at h
      exact h
    · intro i hi
      exact total_course_count_multi pa rows k idxs i hmem hk hlen hi
  · intro k i hmem
    exact ⟨total_course_count_single pa rows k i hmem,
           total_curriculum_zero_single pa rows i⟩

/-- Witness for C10 on a concrete export: rule "R" on rows 0 and 1 yields
one curriculum and per-row courses, rule "S" on row 2 yields one course. -/
theorem claim_C10_witness :
    ((buildRecords (fun s => ([s], [], []))
        [⟨"R", "g1", "c1", "T1", "CT"⟩, ⟨"R", "g2", "c2", "T2", ""⟩,
         ⟨"S", "g3", "c3", "T3", ""⟩]).filter (isCurFor [0, 1])).length = 1 ∧
    ((buildRecords (fun s => ([s], [], []))
        [⟨"R", "g1", "c1", "T1", "CT"⟩, ⟨"R", "g2", "c2", "T2", ""⟩,
         ⟨"S", "g3", "c3", "T3", ""⟩]).filter (isCourseFor 0)).length = 1 ∧
    ((buildRecords (fun s => ([s], [], []))
        [⟨"R", "g1", "c1", "T1", "CT"⟩, ⟨"R", "g2", "c2", "T2", ""⟩,
         ⟨"S", "g3", "c3", "T3", ""⟩]).filter (isCourseFor 2)).length = 1 := by
  have h := claim_C10_normalizer_shape (fun s => ([s], [], []))
    [⟨"R", "g1", "c1", "T1", "CT"⟩, ⟨"R", "g2", "c2", "T2", ""⟩,
     ⟨"S", "g3", "c3", "T3", ""⟩]
  have h1 := h.1 "R" [0, 1] (by decide) (by decide) (by decide)
  have h2 := h.2.1 "S" 2 (by decide)
  exact ⟨h1.1, h1.2.2 0 (by decide), h2.1⟩

end SopAgent
